import Mathlib

/-!
Verification of the vocabulary layer of `t5/data/vocabularies.py` and the
mixing-rate helper of `t5/data/utils.py`.

Modelling conventions:
* A Python string is modelled as a `List Nat` of Unicode code points; the
  predicate `isUnicodeScalar` singles out the code points a well-formed
  string may contain (everything below `0x110000` except the surrogate
  range, exactly the values `str.encode("utf-8")` accepts).
* Python integers are `Int`; lists of token ids are `List Int`.
* A fallible operation returns `Option`: `none` models a raised exception.
-/

/-- A Unicode scalar value: a code point below `0x110000` that is not a
surrogate (`0xD800`–`0xDFFF`).  These are exactly the characters that
Python's `str.encode("utf-8")` can encode. -/
def isUnicodeScalar (c : Nat) : Prop :=
  c < 0xD800 ∨ (0xDFFF < c ∧ c < 0x110000)

instance (c : Nat) : Decidable (isUnicodeScalar c) := by
  unfold isUnicodeScalar; infer_instance

/-- UTF-8 encoding of a single code point (the byte sequence
`str.encode("utf-8")` produces for one character), written with `/` and `%`
over `Nat` (each byte's payload bits occupy disjoint positions, so the
bitwise ors of UTF-8 coincide with these additions). -/
def utf8EncodeChar (c : Nat) : List Nat :=
  if c < 0x80 then [c]
  else if c < 0x800 then [0xC0 + c / 0x40, 0x80 + c % 0x40]
  else if c < 0x10000 then
    [0xE0 + c / 0x1000, 0x80 + c / 0x40 % 0x40, 0x80 + c % 0x40]
  else
    [0xF0 + c / 0x40000, 0x80 + c / 0x1000 % 0x40, 0x80 + c / 0x40 % 0x40,
     0x80 + c % 0x40]

/-- UTF-8 encoding of a string: `s.encode("utf-8")` as a list of byte
values. -/
def utf8Encode (s : List Nat) : List Nat :=
  (s.map utf8EncodeChar).flatten

/-- Python's `bytes(bs).decode("utf-8", errors="ignore")` as a function from
byte values to code points.  Well-formed sequences decode as usual
(shortest-form only, surrogates rejected, exactly CPython's DFA on the
second byte: `E0` needs `A0..BF`, `ED` needs `80..9F`, `F0` needs `90..BF`,
`F4` needs `80..8F`).  On an error the `ignore` handler drops the maximal
subpart of the ill-formed subsequence — the bytes consumed so far — and
resumes at the next byte; a sequence truncated by the end of input is
dropped entirely. -/
def pyUtf8DecodeIgnore : List Nat → List Nat
  | [] => []
  | b0 :: rest =>
    if b0 < 0x80 then
      b0 :: pyUtf8DecodeIgnore rest
    else if b0 < 0xC2 then
      -- stray continuation byte, or the over-long starters C0/C1
      pyUtf8DecodeIgnore rest
    else if b0 < 0xE0 then
      match rest with
      | [] => []
      | b1 :: r1 =>
        if 0x80 ≤ b1 ∧ b1 < 0xC0 then
          ((b0 - 0xC0) * 0x40 + (b1 - 0x80)) :: pyUtf8DecodeIgnore r1
        else
          pyUtf8DecodeIgnore (b1 :: r1)
    else if b0 < 0xF0 then
      match rest with
      | [] => []
      | b1 :: r1 =>
        if (if b0 = 0xE0 then 0xA0 ≤ b1 ∧ b1 < 0xC0
            else if b0 = 0xED then 0x80 ≤ b1 ∧ b1 < 0xA0
            else 0x80 ≤ b1 ∧ b1 < 0xC0) then
          match r1 with
          | [] => []
          | b2 :: r2 =>
            if 0x80 ≤ b2 ∧ b2 < 0xC0 then
              ((b0 - 0xE0) * 0x1000 + (b1 - 0x80) * 0x40 + (b2 - 0x80)) ::
                pyUtf8DecodeIgnore r2
            else
              pyUtf8DecodeIgnore (b2 :: r2)
        else
          pyUtf8DecodeIgnore (b1 :: r1)
    else if b0 < 0xF5 then
      match rest with
      | [] => []
      | b1 :: r1 =>
        if (if b0 = 0xF0 then 0x90 ≤ b1 ∧ b1 < 0xC0
            else if b0 = 0xF4 then 0x80 ≤ b1 ∧ b1 < 0x90
            else 0x80 ≤ b1 ∧ b1 < 0xC0) then
          match r1 with
          | [] => []
          | b2 :: r2 =>
            if 0x80 ≤ b2 ∧ b2 < 0xC0 then
              match r2 with
              | [] => []
              | b3 :: r3 =>
                if 0x80 ≤ b3 ∧ b3 < 0xC0 then
                  ((b0 - 0xF0) * 0x40000 + (b1 - 0x80) * 0x1000 +
                      (b2 - 0x80) * 0x40 + (b3 - 0x80)) ::
                    pyUtf8DecodeIgnore r3
                else
                  pyUtf8DecodeIgnore (b3 :: r3)
            else
              pyUtf8DecodeIgnore (b2 :: r2)
        else
          pyUtf8DecodeIgnore (b1 :: r1)
    else
      -- F5..FF can never start a UTF-8 sequence
      pyUtf8DecodeIgnore rest

/-- Python's `bytes(ids)` constructor on a list of `int`s: raises
(`none`) unless every element is in `[0, 256)`. -/
def pyBytes (ids : List Int) : Option (List Nat) :=
  if ∀ i ∈ ids, 0 ≤ i ∧ i < 256 then some (ids.map Int.toNat) else none

/-- Constant `PAD_ID = 0` (vocabularies.py line 24). -/
def PAD_ID : Int := 0

/-- Constant `EOS_ID = 1` (vocabularies.py line 25). -/
def EOS_ID : Int := 1

/-- Constant `UNK_ID = 2` (vocabularies.py line 26). -/
def UNK_ID : Int := 2

/-- Property `Vocabulary.eos_id`: `EOS_ID if self._use_eos else None`. -/
def Vocabulary.eos_id (use_eos : Bool) : Option Int :=
  if use_eos then some EOS_ID else none

/-- Property `Vocabulary.unk_id`: `UNK_ID if self._use_unk else None`. -/
def Vocabulary.unk_id (use_unk : Bool) : Option Int :=
  if use_unk then some UNK_ID else none

/-- Property `Vocabulary.vocab_size`: `self._base_vocab_size + self.extra_ids`. -/
def Vocabulary.vocab_size (base_vocab_size extra_ids : Int) : Int :=
  base_vocab_size + extra_ids

/-- Method `Vocabulary.decode` (vocabularies.py lines 96–109), with the abstract
members `_base_vocab_size` and `_decode` passed explicitly.  Replaces every
id `≥ base_vocab_size` by `unk_id` (when defined), truncates at the first
occurrence of `eos_id` (when defined and present: `clean_ids =
clean_ids[:clean_ids.index(eos_id)]`), and hands the result to the
primitive decoder. -/
def Vocabulary.decode (use_eos use_unk : Bool) (base_vocab_size : Int)
    (primDecode : List Int → Option (List Nat)) (ids : List Int) :
    Option (List Nat) :=
  let clean1 : List Int :=
    match Vocabulary.unk_id use_unk with
    | some u => ids.map fun i => if base_vocab_size ≤ i then u else i
    | none => ids
  let clean2 : List Int :=
    match Vocabulary.eos_id use_eos with
    | some e => if e ∈ clean1 then clean1.take (clean1.indexOf e) else clean1
    | none => clean1
  primDecode clean2

/-- Model of `tf.where(tf.less(ids, base), ids, unk)`: the elementwise
out-of-range-to-unk substitution of `Vocabulary.decode_tf` line 128. -/
def tfWhere (base unk : Int) (ids : List Int) : List Int :=
  ids.map fun i => if i < base then i else unk

/-- Model of `tf.argmax(tf.equal(l, e))` over a non-empty 1-D tensor: the index of
the first occurrence of `e`, or `0` when `e` does not occur (argmax of an
all-false boolean vector is 0). -/
def tfArgmaxEq (l : List Int) (e : Int) : Nat :=
  if e ∈ l then l.indexOf e else 0

/-- Method `Vocabulary.decode_tf` (vocabularies.py lines 123–141), with the
abstract members passed explicitly.  The unk substitution is elementwise
`tf.where`; the EOS stage computes `first_eos` by an argmax scan and keeps
the tensor whole exactly when `first_eos == 0` and element 0 is not the
terminator, otherwise slices `ids[:first_eos]`.  On an empty tensor
`tf.argmax` (reduction over an empty axis) and `valid_ids[0]` raise, so the
EOS stage yields `none` there. -/
def Vocabulary.decode_tf (use_eos use_unk : Bool) (base_vocab_size : Int)
    (primDecodeTf : List Int → Option (List Nat)) (ids : List Int) :
    Option (List Nat) :=
  let valid1 : List Int :=
    match Vocabulary.unk_id use_unk with
    | some u => tfWhere base_vocab_size u ids
    | none => ids
  match Vocabulary.eos_id use_eos with
  | none => primDecodeTf valid1
  | some e =>
    match valid1 with
    | [] => none
    | h :: t =>
      let first_eos := tfArgmaxEq (h :: t) e
      primDecodeTf
        (if first_eos = 0 ∧ h ≠ e then h :: t else (h :: t).take first_eos)

/-- A `ByteVocabulary` instance: the attributes `__init__` stores on
`self` (`_byte_size`, `_num_special_tokens`, and the base-class
`_extra_ids`, `_use_eos`, `_use_unk`). -/
structure ByteVocabulary where
  byte_size : Int
  num_special_tokens : Int
  extra_ids : Int
  use_eos : Bool
  use_unk : Bool
deriving DecidableEq

namespace ByteVocabulary

/-- Constructor `ByteVocabulary.__init__(extra_ids)` (lines 152–164): sets
`_byte_size = 256`, `_num_special_tokens = 3` and calls
`super().__init__(use_eos=True, use_unk=True, extra_ids=extra_ids)`. -/
def init (extra_ids : Int) : ByteVocabulary :=
  { byte_size := 256
    num_special_tokens := 3
    extra_ids := extra_ids
    use_eos := true
    use_unk := true }

/-- Property `ByteVocabulary._base_vocab_size`:
`self._num_special_tokens + self._byte_size`. -/
def base_vocab_size (v : ByteVocabulary) : Int :=
  v.num_special_tokens + v.byte_size

/-- Property `Vocabulary.vocab_size` specialised to a `ByteVocabulary`. -/
def vocab_size (v : ByteVocabulary) : Int :=
  Vocabulary.vocab_size v.base_vocab_size v.extra_ids

/-- Method `ByteVocabulary._convert_strings_to_ids`: `list(s.encode("utf-8"))`. -/
def convert_strings_to_ids (s : List Nat) : List Int :=
  (utf8Encode s).map fun (b : Nat) => (b : Int)

/-- Method `ByteVocabulary._convert_ids_to_strings`:
`bytes(ids).decode("utf-8", errors="ignore")`. -/
def convert_ids_to_strings (ids : List Int) : Option (List Nat) :=
  (pyBytes ids).map pyUtf8DecodeIgnore

/-- Method `ByteVocabulary._filter_non_string_ids`: keep ids with
`num_special_tokens <= id < byte_size + num_special_tokens`. -/
def filter_non_string_ids (v : ByteVocabulary) (ids : List Int) : List Int :=
  ids.filter fun i =>
    decide (v.num_special_tokens ≤ i ∧ i < v.byte_size + v.num_special_tokens)

/-- Method `ByteVocabulary._encode` (lines 207–219): UTF-8 bytes shifted up by
`_num_special_tokens`. -/
def encodeImpl (v : ByteVocabulary) (s : List Nat) : List Int :=
  (convert_strings_to_ids s).map fun i => i + v.num_special_tokens

/-- Method `Vocabulary.encode`: `self._encode(s)`. -/
def encode (v : ByteVocabulary) (s : List Nat) : List Int :=
  v.encodeImpl s

/-- Method `ByteVocabulary._decode` (lines 221–236): filter out non-string ids,
shift down by `_num_special_tokens`, interpret as UTF-8. -/
def decodeImpl (v : ByteVocabulary) (ids : List Int) : Option (List Nat) :=
  convert_ids_to_strings
    ((v.filter_non_string_ids ids).map fun i => i - v.num_special_tokens)

/-- Method `Vocabulary.decode` specialised to a `ByteVocabulary` instance. -/
def decode (v : ByteVocabulary) (ids : List Int) : Option (List Nat) :=
  Vocabulary.decode v.use_eos v.use_unk v.base_vocab_size v.decodeImpl ids

/-- Method `ByteVocabulary._encode_tf` (lines 238–247):
`tf.io.decode_raw(s, tf.uint8) + 3`, cast to int32 — the raw UTF-8 bytes of
the string scalar, shifted by `_num_special_tokens`. -/
def encodeTfImpl (v : ByteVocabulary) (s : List Nat) : List Int :=
  (utf8Encode s).map fun (b : Nat) => (b : Int) + v.num_special_tokens

/-- Method `Vocabulary.encode_tf`: `self._encode_tf(s)`. -/
def encode_tf (v : ByteVocabulary) (s : List Nat) : List Int :=
  v.encodeTfImpl s

/-- Method `ByteVocabulary._decode_tf` (lines 249–257):
`tf.py_function(func=self.decode, inp=[ids], Tout=tf.string)` — the scalar
`Vocabulary.decode` called on the tensor's values. -/
def decodeTfImpl (v : ByteVocabulary) (ids : List Int) : Option (List Nat) :=
  v.decode ids

/-- Method `Vocabulary.decode_tf` specialised to a `ByteVocabulary` instance. -/
def decode_tf (v : ByteVocabulary) (ids : List Int) : Option (List Nat) :=
  Vocabulary.decode_tf v.use_eos v.use_unk v.base_vocab_size v.decodeTfImpl ids

/-- Method `ByteVocabulary.__eq__` (lines 259–261): reads `other.extra_ids` and
compares it with `self.extra_ids`; no other attribute is consulted. -/
def pyEq (v other : ByteVocabulary) : Bool :=
  v.extra_ids == other.extra_ids

end ByteVocabulary

/-- Function `rate_unsupervised` (utils.py lines 52–56): `del task; return value`.
The `task` argument is of arbitrary type and is discarded.  Numeric values
are modelled as exact rationals; the Python default `value=1e6` is the
float `1e6 == 10^6`, represented exactly. -/
def rate_unsupervised {α : Type} (task : α) (value : ℚ) : ℚ :=
  value

/-- The default of `rate_unsupervised`'s `value` parameter: `1e6`. -/
def rate_unsupervised_default_value : ℚ := 1000000

section Utf8Lemmas

/-- One decoding step on a well-formed one-byte sequence. -/
lemma pyUtf8DecodeIgnore_cons1 (b0 : Nat) (rest : List Nat) (h0 : b0 < 0x80) :
    pyUtf8DecodeIgnore (b0 :: rest) = b0 :: pyUtf8DecodeIgnore rest := by
  rw [pyUtf8DecodeIgnore.eq_def]
  simp only
  rw [if_pos h0]

/-- One decoding step on a well-formed two-byte sequence. -/
lemma pyUtf8DecodeIgnore_cons2 (b0 b1 : Nat) (rest : List Nat)
    (h0 : 0xC2 ≤ b0) (h1 : b0 < 0xE0) (h2 : 0x80 ≤ b1) (h3 : b1 < 0xC0) :
    pyUtf8DecodeIgnore (b0 :: b1 :: rest) =
      ((b0 - 0xC0) * 0x40 + (b1 - 0x80)) :: pyUtf8DecodeIgnore rest := by
  rw [pyUtf8DecodeIgnore.eq_def]
  simp only
  rw [if_neg (by omega), if_neg (by omega), if_pos (by omega), if_pos ⟨h2, h3⟩]

/-- One decoding step on a well-formed three-byte sequence. -/
lemma pyUtf8DecodeIgnore_cons3 (b0 b1 b2 : Nat) (rest : List Nat)
    (h0 : 0xE0 ≤ b0) (h1 : b0 < 0xF0)
    (hb1 : if b0 = 0xE0 then 0xA0 ≤ b1 ∧ b1 < 0xC0
           else if b0 = 0xED then 0x80 ≤ b1 ∧ b1 < 0xA0
           else 0x80 ≤ b1 ∧ b1 < 0xC0)
    (h2 : 0x80 ≤ b2) (h3 : b2 < 0xC0) :
    pyUtf8DecodeIgnore (b0 :: b1 :: b2 :: rest) =
      ((b0 - 0xE0) * 0x1000 + (b1 - 0x80) * 0x40 + (b2 - 0x80)) ::
        pyUtf8DecodeIgnore rest := by
  rw [pyUtf8DecodeIgnore.eq_def]
  simp only
  rw [if_neg (by omega), if_neg (by omega), if_neg (by omega), if_pos (by omega),
    if_pos hb1, if_pos ⟨h2, h3⟩]

/-- One decoding step on a well-formed four-byte sequence. -/
lemma pyUtf8DecodeIgnore_cons4 (b0 b1 b2 b3 : Nat) (rest : List Nat)
    (h0 : 0xF0 ≤ b0) (h1 : b0 < 0xF5)
    (hb1 : if b0 = 0xF0 then 0x90 ≤ b1 ∧ b1 < 0xC0
           else if b0 = 0xF4 then 0x80 ≤ b1 ∧ b1 < 0x90
           else 0x80 ≤ b1 ∧ b1 < 0xC0)
    (h2 : 0x80 ≤ b2) (h3 : b2 < 0xC0) (h4 : 0x80 ≤ b3) (h5 : b3 < 0xC0) :
    pyUtf8DecodeIgnore (b0 :: b1 :: b2 :: b3 :: rest) =
      ((b0 - 0xF0) * 0x40000 + (b1 - 0x80) * 0x1000 + (b2 - 0x80) * 0x40 +
        (b3 - 0x80)) :: pyUtf8DecodeIgnore rest := by
  rw [pyUtf8DecodeIgnore.eq_def]
  simp only
  rw [if_neg (by omega), if_neg (by omega), if_neg (by omega), if_neg (by omega),
    if_pos (by omega), if_pos hb1, if_pos ⟨h2, h3⟩, if_pos ⟨h4, h5⟩]

/-- Decoding undoes encoding of a single scalar value, leaving the tail
untouched. -/
lemma pyUtf8DecodeIgnore_encodeChar (c : Nat) (hc : isUnicodeScalar c)
    (rest : List Nat) :
    pyUtf8DecodeIgnore (utf8EncodeChar c ++ rest) =
      c :: pyUtf8DecodeIgnore rest := by
  by_cases h1 : c < 0x80
  · simp only [utf8EncodeChar, if_pos h1, List.cons_append, List.nil_append]
    rw [pyUtf8DecodeIgnore_cons1 c rest h1]
  by_cases h2 : c < 0x800
  · simp only [utf8EncodeChar, if_neg h1, if_pos h2, List.cons_append,
      List.nil_append]
    rw [pyUtf8DecodeIgnore_cons2 _ _ _ (by omega) (by omega) (by omega)
      (by omega)]
    simp only [List.cons.injEq, and_true]
    omega
  by_cases h3 : c < 0x10000
  · have hs : ¬(0xD800 ≤ c ∧ c ≤ 0xDFFF) := by
      unfold isUnicodeScalar at hc; omega
    simp only [utf8EncodeChar, if_neg h1, if_neg h2, if_pos h3,
      List.cons_append, List.nil_append]
    rw [pyUtf8DecodeIgnore_cons3 _ _ _ _ (by omega) (by omega)
      (by split
          · omega
          · split <;> omega)
      (by omega) (by omega)]
    simp only [List.cons.injEq, and_true]
    omega
  · have hhi : c < 0x110000 := by unfold isUnicodeScalar at hc; omega
    simp only [utf8EncodeChar, if_neg h1, if_neg h2, if_neg h3,
      List.cons_append, List.nil_append]
    rw [pyUtf8DecodeIgnore_cons4 _ _ _ _ _ (by omega) (by omega)
      (by split
          · omega
          · split <;> omega)
      (by omega) (by omega) (by omega) (by omega)]
    simp only [List.cons.injEq, and_true]
    omega

/-- Round trip of the byte-level codec: decoding the UTF-8 encoding of a
well-formed string yields the string back. -/
lemma pyUtf8DecodeIgnore_utf8Encode (s : List Nat)
    (h : ∀ c ∈ s, isUnicodeScalar c) :
    pyUtf8DecodeIgnore (utf8Encode s) = s := by
  induction s with
  | nil => rfl
  | cons c t ih =>
    have h1 : isUnicodeScalar c := h c (List.mem_cons_self c t)
    have h2 : ∀ x ∈ t, isUnicodeScalar x := fun x hx =>
      h x (List.mem_cons_of_mem c hx)
    have hsplit : utf8Encode (c :: t) = utf8EncodeChar c ++ utf8Encode t := by
      simp [utf8Encode]
    rw [hsplit, pyUtf8DecodeIgnore_encodeChar c h1, ih h2]

/-- Every byte produced by the character encoder is below 256 (for code
points below `0x110000`). -/
lemma utf8EncodeChar_lt_256 (c : Nat) (hc : c < 0x110000) :
    ∀ b ∈ utf8EncodeChar c, b < 0x100 := by
  intro b hb
  unfold utf8EncodeChar at hb
  split at hb
  · simp only [List.mem_singleton] at hb; omega
  · split at hb
    · simp only [List.mem_cons, List.mem_singleton, List.not_mem_nil,
        or_false] at hb
      rcases hb with hb | hb <;> omega
    · split at hb
      · simp only [List.mem_cons, List.not_mem_nil, or_false] at hb
        rcases hb with hb | hb | hb <;> omega
      · simp only [List.mem_cons, List.not_mem_nil, or_false] at hb
        rcases hb with hb | hb | hb | hb <;> omega

/-- Every byte produced by the string encoder is below 256. -/
lemma utf8Encode_lt_256 (s : List Nat) (h : ∀ c ∈ s, c < 0x110000) :
    ∀ b ∈ utf8Encode s, b < 0x100 := by
  intro b hb
  simp only [utf8Encode, List.mem_flatten, List.mem_map] at hb
  obtain ⟨l, ⟨c, hc, rfl⟩, hbl⟩ := hb
  exact utf8EncodeChar_lt_256 c (h c hc) b hbl

/-- The character encoder never returns the empty byte sequence. -/
lemma utf8EncodeChar_ne_nil (c : Nat) : utf8EncodeChar c ≠ [] := by
  unfold utf8EncodeChar
  split
  · simp
  · split
    · simp
    · split <;> simp

end Utf8Lemmas

section ListHelpers

/-- A map whose function fixes every element of the list is the identity. -/
lemma list_map_fix {α : Type} (f : α → α) (l : List α)
    (h : ∀ x ∈ l, f x = x) : l.map f = l := by
  induction l with
  | nil => rfl
  | cons a t ih =>
    simp only [List.map_cons, h a (List.mem_cons_self a t),
      ih (fun x hx => h x (List.mem_cons_of_mem a hx))]

/-- Two maps agreeing on the elements of a list produce the same list. -/
lemma list_map_ext {α β : Type} (f g : α → β) (l : List α)
    (h : ∀ x ∈ l, f x = g x) : l.map f = l.map g := by
  induction l with
  | nil => rfl
  | cons a t ih =>
    simp only [List.map_cons, h a (List.mem_cons_self a t),
      ih (fun x hx => h x (List.mem_cons_of_mem a hx))]

/-- Python's `l[:l.index(e)]` is the longest prefix free of `e`. -/
lemma take_indexOf_eq_takeWhile (l : List Int) (e : Int) :
    l.take (l.indexOf e) = l.takeWhile (fun i => i != e) := by
  induction l with
  | nil => rfl
  | cons a t ih =>
    by_cases hae : a = e
    · subst hae
      simp [List.indexOf_cons, List.takeWhile_cons]
    · simp [List.indexOf_cons, List.takeWhile_cons, hae, ih]

end ListHelpers

/-- Claim C1:  For every string `s` of Unicode scalar values (valid UTF-8
text), `ByteVocabulary.decode (ByteVocabulary.encode s)` recovers `s`
exactly, for any number of extra ids. -/
theorem byteVocab_decode_encode_roundtrip (k : Int) (s : List Nat)
    (h : ∀ c ∈ s, isUnicodeScalar c) :
    (ByteVocabulary.init k).decode ((ByteVocabulary.init k).encode s) =
      some s := by
  have hcp : ∀ c ∈ s, c < 0x110000 := by
    intro c hc
    have := h c hc
    unfold isUnicodeScalar at this
    omega
  have hbs : ∀ b ∈ utf8Encode s, b < 0x100 := utf8Encode_lt_256 s hcp
  have henc : (ByteVocabulary.init k).encode s =
      (utf8Encode s).map (fun (b : Nat) => (b : Int) + 3) := by
    simp [ByteVocabulary.encode, ByteVocabulary.encodeImpl,
      ByteVocabulary.convert_strings_to_ids, ByteVocabulary.init,
      List.map_map, Function.comp_def]
  rw [henc]
  simp only [ByteVocabulary.decode, Vocabulary.decode, Vocabulary.unk_id,
    Vocabulary.eos_id, ByteVocabulary.init, ByteVocabulary.base_vocab_size,
    UNK_ID, EOS_ID, if_pos]
  have hclean : ((utf8Encode s).map (fun (b : Nat) => (b : Int) + 3)).map
      (fun i => if (3 : Int) + 256 ≤ i then 2 else i) =
      (utf8Encode s).map (fun (b : Nat) => (b : Int) + 3) := by
    apply list_map_fix
    intro x hx
    simp only [List.mem_map] at hx
    obtain ⟨b, hb, rfl⟩ := hx
    have := hbs b hb
    rw [if_neg (by omega)]
  rw [hclean]
  have hmem : ¬((1 : Int) ∈ (utf8Encode s).map (fun (b : Nat) => (b : Int) + 3)) := by
    simp only [List.mem_map]
    rintro ⟨b, hb, hq⟩
    omega
  rw [if_neg hmem]
  simp only [ByteVocabulary.decodeImpl, ByteVocabulary.filter_non_string_ids,
    ByteVocabulary.convert_ids_to_strings, ByteVocabulary.init]
  have hfil : ((utf8Encode s).map (fun (b : Nat) => (b : Int) + 3)).filter
      (fun i => decide ((3 : Int) ≤ i ∧ i < 256 + 3)) =
      (utf8Encode s).map (fun (b : Nat) => (b : Int) + 3) := by
    apply List.filter_eq_self.mpr
    intro x hx
    simp only [List.mem_map] at hx
    obtain ⟨b, hb, rfl⟩ := hx
    have := hbs b hb
    simp only [decide_eq_true_eq]
    omega
  rw [hfil]
  have hsub : ((utf8Encode s).map (fun (b : Nat) => (b : Int) + 3)).map
      (fun i => i - 3) = (utf8Encode s).map (fun (b : Nat) => (b : Int)) := by
    rw [List.map_map]
    apply list_map_ext
    intro x _
    simp only [Function.comp_apply]
    omega
  rw [hsub]
  simp only [pyBytes]
  rw [if_pos]
  · simp only [Option.map_some, List.map_map]
    have htn : (utf8Encode s).map (Int.toNat ∘ fun (b : Nat) => (b : Int)) =
        utf8Encode s := by
      apply list_map_fix
      intro x _
      simp
    rw [htn]
    simp [pyUtf8DecodeIgnore_utf8Encode s h]
  · intro i hi
    simp only [List.mem_map] at hi
    obtain ⟨b, hb, rfl⟩ := hi
    have := hbs b hb
    omega

/-- Closed witness for C1 at a concrete string (`"hi€"`, code points
`[104, 105, 8364]`). -/
theorem byteVocab_decode_encode_roundtrip_witness :
    (ByteVocabulary.init 0).decode
      ((ByteVocabulary.init 0).encode [104, 105, 8364]) =
      some [104, 105, 8364] :=
  byteVocab_decode_encode_roundtrip 0 [104, 105, 8364] (by decide)

/-- Fact: `EOS_ID = 1` never survives `takeWhile (· != 1)`. -/
lemma not_one_mem_takeWhile (l : List Int) :
    (1 : Int) ∉ l.takeWhile (fun i => i != 1) := by
  intro hx
  have := List.mem_takeWhile_imp hx
  simp at this

/-- The unk substitution maps no id to `1` and fixes `1` itself, as long as
`1 < base_vocab_size`. -/
lemma unk_map_eq_one_iff (base : Int) (hb : 1 < base) (i : Int) :
    (if base ≤ i then (2 : Int) else i) = 1 ↔ i = 1 := by
  split <;> omega

/-- Truncation law for the generic scalar decoder: when the terminator id
`1` occurs in the input, `Vocabulary.decode` is unchanged by dropping
everything from the first occurrence onward. -/
lemma vocab_decode_truncates (use_unk : Bool) (base : Int) (hb : 1 < base)
    (primDecode : List Int → Option (List Nat)) (ids : List Int)
    (h : (1 : Int) ∈ ids) :
    Vocabulary.decode true use_unk base primDecode ids =
      Vocabulary.decode true use_unk base primDecode
        (ids.takeWhile (fun i => i != 1)) := by
  cases use_unk with
  | false =>
    simp only [Vocabulary.decode, Vocabulary.unk_id, Vocabulary.eos_id,
      EOS_ID, UNK_ID, Bool.false_eq_true, if_false, if_true]
    rw [if_pos h, if_neg (not_one_mem_takeWhile ids),
      take_indexOf_eq_takeWhile]
  | true =>
    simp only [Vocabulary.decode, Vocabulary.unk_id, Vocabulary.eos_id,
      EOS_ID, UNK_ID, if_true]
    have hm : (1 : Int) ∈ ids.map (fun i => if base ≤ i then 2 else i) := by
      simp only [List.mem_map]
      exact ⟨1, h, by rw [if_neg (by omega)]⟩
    rw [if_pos hm, take_indexOf_eq_takeWhile, List.takeWhile_map]
    have hcomp : ((fun i => i != (1 : Int)) ∘
        (fun i => if base ≤ i then (2 : Int) else i)) =
        fun i => i != 1 := by
      funext i
      simp only [Function.comp_apply]
      by_cases hc : base ≤ i
      · have h1 : i ≠ 1 := by omega
        simp [hc, h1]
      · simp [hc]
    rw [hcomp]
    have hnm : (1 : Int) ∉ (ids.takeWhile (fun i => i != 1)).map
        (fun i => if base ≤ i then 2 else i) := by
      simp only [List.mem_map]
      rintro ⟨b, hb2, hq⟩
      have hb3 : b ≠ 1 := by
        have := List.mem_takeWhile_imp hb2
        simpa using this
      exact hb3 ((unk_map_eq_one_iff base hb b).mp hq)
    rw [if_neg hnm]

/-- Claim C2:  For every id sequence containing the terminator `eos_id = 1`,
`ByteVocabulary.decode` decodes only the prefix strictly before the first
occurrence of `1`: the terminator and everything after it are discarded. -/
theorem byteVocab_decode_truncates_at_first_eos (k : Int) (ids : List Int)
    (h : (1 : Int) ∈ ids) :
    (ByteVocabulary.init k).decode ids =
      (ByteVocabulary.init k).decode (ids.takeWhile (fun i => i != 1)) := by
  unfold ByteVocabulary.decode
  exact vocab_decode_truncates true ((ByteVocabulary.init k).base_vocab_size)
    (by norm_num [ByteVocabulary.init, ByteVocabulary.base_vocab_size])
    ((ByteVocabulary.init k).decodeImpl) ids h

/-- Closed witness for C2 at the spec's concrete input:
`decode([3, 4, 1, 5, 6]) == decode([3, 4])`. -/
theorem byteVocab_decode_truncates_at_first_eos_witness :
    (ByteVocabulary.init 0).decode [3, 4, 1, 5, 6] =
      (ByteVocabulary.init 0).decode [3, 4] := by
  have := byteVocab_decode_truncates_at_first_eos 0 [3, 4, 1, 5, 6]
    (by decide)
  rw [this]
  rfl

/-- The encoder of a `ByteVocabulary` built by `__init__` is the shifted
UTF-8 byte sequence. -/
lemma byteVocab_encode_init_eq (k : Int) (s : List Nat) :
    (ByteVocabulary.init k).encode s =
      (utf8Encode s).map (fun (b : Nat) => (b : Int) + 3) := by
  simp [ByteVocabulary.encode, ByteVocabulary.encodeImpl,
    ByteVocabulary.convert_strings_to_ids, ByteVocabulary.init,
    List.map_map, Function.comp_def]

/-- Claim C3:  For every string `s`, `ByteVocabulary.encode s` is the UTF-8
byte sequence of `s` with each byte `b` mapped to id `b + 3`; hence the
output has the UTF-8 byte length of `s` and contains no id in
`{0, 1, 2}`. -/
theorem byteVocab_encode_shifted_bytes (k : Int) (s : List Nat)
    (h : ∀ c ∈ s, isUnicodeScalar c) :
    (ByteVocabulary.init k).encode s =
      (utf8Encode s).map (fun (b : Nat) => (b : Int) + 3) ∧
    ((ByteVocabulary.init k).encode s).length = (utf8Encode s).length ∧
    ∀ i ∈ (ByteVocabulary.init k).encode s, i ≠ 0 ∧ i ≠ 1 ∧ i ≠ 2 := by
  refine ⟨byteVocab_encode_init_eq k s, ?_, ?_⟩
  · rw [byteVocab_encode_init_eq k s, List.length_map]
  · intro i hi
    rw [byteVocab_encode_init_eq k s] at hi
    simp only [List.mem_map] at hi
    obtain ⟨b, hb, rfl⟩ := hi
    refine ⟨by omega, by omega, by omega⟩

/-- Closed witness for C3: `encode("hi")` is `[107, 108]`, and its first id
is none of the special ids. -/
theorem byteVocab_encode_shifted_bytes_witness :
    (ByteVocabulary.init 0).encode [104, 105] =
      (utf8Encode [104, 105]).map (fun (b : Nat) => (b : Int) + 3) ∧
    ((107 : Int) ≠ 0 ∧ (107 : Int) ≠ 1 ∧ (107 : Int) ≠ 2) :=
  ⟨(byteVocab_encode_shifted_bytes 0 [104, 105] (by decide)).1,
   (byteVocab_encode_shifted_bytes 0 [104, 105] (by decide)).2.2 107
     (by decide)⟩

/-- Fact: `ByteVocabulary._decode` never raises: the range filter guarantees the
`bytes()` constructor only sees values in `[0, 256)`. -/
lemma byteVocab_decodeImpl_init_isSome (k : Int) (l : List Int) :
    ((ByteVocabulary.init k).decodeImpl l).isSome = true := by
  simp only [ByteVocabulary.decodeImpl, ByteVocabulary.convert_ids_to_strings,
    ByteVocabulary.filter_non_string_ids, ByteVocabulary.init, pyBytes]
  rw [if_pos]
  · simp
  · intro i hi
    simp only [List.mem_map, List.mem_filter] at hi
    obtain ⟨x, ⟨_, hx2⟩, rfl⟩ := hi
    simp only [decide_eq_true_eq] at hx2
    omega

/-- Fact: `ByteVocabulary._decode` of a list of ids that are all below 3 is the
empty string (they are all filtered out). -/
lemma byteVocab_decodeImpl_init_small (k : Int) (l : List Int)
    (h : ∀ x ∈ l, x < 3) :
    (ByteVocabulary.init k).decodeImpl l = some [] := by
  simp only [ByteVocabulary.decodeImpl, ByteVocabulary.convert_ids_to_strings,
    ByteVocabulary.filter_non_string_ids, ByteVocabulary.init]
  have hfil : l.filter
      (fun i => decide ((3 : Int) ≤ i ∧ i < 256 + 3)) = [] := by
    rw [List.filter_eq_nil_iff]
    intro a ha
    have := h a ha
    simp only [decide_eq_true_eq]
    omega
  rw [hfil]
  rfl

/-- Claim C4:  `ByteVocabulary.decode` is total: it never raises on any list
of integers, and when every id lies outside the content range `[3, 258]`
the result is the empty string. -/
theorem byteVocab_decode_total (k : Int) (ids : List Int) :
    ((ByteVocabulary.init k).decode ids).isSome = true ∧
    ((∀ i ∈ ids, i < 3 ∨ 258 < i) →
      (ByteVocabulary.init k).decode ids = some []) := by
  constructor
  · simp only [ByteVocabulary.decode, Vocabulary.decode]
    exact byteVocab_decodeImpl_init_isSome k _
  · intro hout
    simp only [ByteVocabulary.decode, Vocabulary.decode, Vocabulary.unk_id,
      Vocabulary.eos_id, ByteVocabulary.init, ByteVocabulary.base_vocab_size,
      UNK_ID, EOS_ID, if_true]
    apply byteVocab_decodeImpl_init_small
    intro x hx
    have hx2 : x ∈ ids.map (fun i => if (3 : Int) + 256 ≤ i then 2 else i) := by
      split at hx
      · exact List.mem_of_mem_take hx
      · exact hx
    simp only [List.mem_map] at hx2
    obtain ⟨i, hi, rfl⟩ := hx2
    have := hout i hi
    split <;> omega

/-- Closed witness for C4 at the spec's input: `decode([300])` raises no
exception and yields the empty string. -/
theorem byteVocab_decode_total_witness :
    (ByteVocabulary.init 0).decode [300] = some [] :=
  (byteVocab_decode_total 0 [300]).2 (by decide)

/-- Claim C7:  `ByteVocabulary(extra_ids=k).vocab_size == 259 + k` for every
`k ≥ 0`: 3 special tokens plus 256 byte values plus the extra ids. -/
theorem byteVocab_vocab_size_formula (k : Int) (h : 0 ≤ k) :
    (ByteVocabulary.init k).vocab_size = 259 + k := by
  simp only [ByteVocabulary.vocab_size, Vocabulary.vocab_size,
    ByteVocabulary.base_vocab_size, ByteVocabulary.init]
  norm_num

/-- Closed witness for C7 at `k = 5`. -/
theorem byteVocab_vocab_size_formula_witness :
    (0 : Int) ≤ 5 ∧ (ByteVocabulary.init 5).vocab_size = 259 + 5 :=
  ⟨by decide, byteVocab_vocab_size_formula 5 (by decide)⟩

/-- Claim C8:  `ByteVocabulary.__eq__` compares `extra_ids` and nothing
else: two instances are equal iff their `extra_ids` match, and replacing
the second operand by any instance with the same `extra_ids` (whatever its
other attributes) leaves the comparison unchanged. -/
theorem byteVocab_eq_iff_extra_ids (v w : ByteVocabulary) :
    (ByteVocabulary.pyEq v w = true ↔ v.extra_ids = w.extra_ids) ∧
    ∀ w' : ByteVocabulary, w.extra_ids = w'.extra_ids →
      ByteVocabulary.pyEq v w = ByteVocabulary.pyEq v w' := by
  constructor
  · simp [ByteVocabulary.pyEq]
  · intro w' hw
    simp [ByteVocabulary.pyEq, hw]

/-- Closed witness for C8: instances differing in every attribute except
`extra_ids` compare the same (here: both equal to `init 7`). -/
theorem byteVocab_eq_iff_extra_ids_witness :
    ByteVocabulary.pyEq (ByteVocabulary.init 7)
        ⟨256, 3, 7, true, true⟩ =
      ByteVocabulary.pyEq (ByteVocabulary.init 7)
        ⟨0, 0, 7, false, false⟩ :=
  (byteVocab_eq_iff_extra_ids (ByteVocabulary.init 7)
    ⟨256, 3, 7, true, true⟩).2 ⟨0, 0, 7, false, false⟩ (by decide)

/-- Claim C9:  `rate_unsupervised` returns its `value` parameter for every
task; two arbitrary tasks (of arbitrary types) give the same result, and
at the default `value` the result is one million. -/
theorem rate_unsupervised_ignores_task {α β : Type} (t : α) (t' : β)
    (val : ℚ) :
    rate_unsupervised t val = val ∧
    rate_unsupervised t val = rate_unsupervised t' val ∧
    rate_unsupervised t rate_unsupervised_default_value = 1000000 :=
  ⟨rfl, rfl, rfl⟩

/-- Claim C10:  `ByteVocabulary.__init__` hard-codes `use_eos=True` and
`use_unk=True`, so `eos_id = 1` and `unk_id = 2` are always defined, and a
leading terminator truncates both the scalar and the batched decode to the
empty string — the caller cannot disable this. -/
theorem byteVocab_eos_unk_always_on (k : Int) (ids : List Int) :
    (ByteVocabulary.init k).use_eos = true ∧
    (ByteVocabulary.init k).use_unk = true ∧
    Vocabulary.eos_id (ByteVocabulary.init k).use_eos = some 1 ∧
    Vocabulary.unk_id (ByteVocabulary.init k).use_unk = some 2 ∧
    (ByteVocabulary.init k).decode (1 :: ids) = some [] ∧
    (ByteVocabulary.init k).decode_tf (1 :: ids) = some [] := by
  refine ⟨rfl, rfl, rfl, rfl, ?_, ?_⟩
  · simp only [ByteVocabulary.decode, Vocabulary.decode, Vocabulary.unk_id,
      Vocabulary.eos_id, ByteVocabulary.init, ByteVocabulary.base_vocab_size,
      UNK_ID, EOS_ID, if_true, List.map_cons]
    rw [if_neg (by omega : ¬((3 : Int) + 256 ≤ 1))]
    rw [if_pos (List.mem_cons_self _ _), List.indexOf_cons_self,
      List.take_zero]
    exact byteVocab_decodeImpl_init_small k [] (by simp)
  · simp only [ByteVocabulary.decode_tf, Vocabulary.decode_tf,
      Vocabulary.unk_id, Vocabulary.eos_id, ByteVocabulary.init,
      ByteVocabulary.base_vocab_size, UNK_ID, EOS_ID, if_true, tfWhere,
      List.map_cons]
    rw [if_pos (by omega : (1 : Int) < 3 + 256)]
    simp only [tfArgmaxEq, List.indexOf_cons_self, ite_self]
    rw [if_neg (by simp), List.take_zero]
    simp only [ByteVocabulary.decodeTfImpl, ByteVocabulary.decode,
      Vocabulary.decode, Vocabulary.unk_id, Vocabulary.eos_id,
      ByteVocabulary.init, ByteVocabulary.base_vocab_size, UNK_ID, EOS_ID,
      if_true, List.map_nil]
    rw [if_neg (by simp)]
    exact byteVocab_decodeImpl_init_small k [] (by simp)

/-- Fact: `__init__` sets `use_eos` to `True`. -/
lemma init_use_eos (k : Int) : (ByteVocabulary.init k).use_eos = true := rfl

/-- Fact: `__init__` sets `use_unk` to `True`. -/
lemma init_use_unk (k : Int) : (ByteVocabulary.init k).use_unk = true := rfl

/-- The base vocabulary size of a constructed `ByteVocabulary` is 259. -/
lemma byteVocab_base_init (k : Int) :
    (ByteVocabulary.init k).base_vocab_size = 259 := by
  norm_num [ByteVocabulary.base_vocab_size, ByteVocabulary.init]

/-- Normal form of the scalar decode of a constructed `ByteVocabulary`:
unk-substitute, truncate at the first terminator if present, and hand to
`_decode`. -/
lemma byteVocab_decode_init_eq (k : Int) (ids : List Int) :
    (ByteVocabulary.init k).decode ids =
      (ByteVocabulary.init k).decodeImpl
        (if (1 : Int) ∈ ids.map (fun i => if (259 : Int) ≤ i then 2 else i)
         then (ids.map (fun i => if (259 : Int) ≤ i then 2 else i)).takeWhile
            (fun i => i != 1)
         else ids.map (fun i => if (259 : Int) ≤ i then 2 else i)) := by
  simp only [ByteVocabulary.decode, Vocabulary.decode, Vocabulary.unk_id,
    Vocabulary.eos_id, UNK_ID, EOS_ID, init_use_eos, init_use_unk,
    byteVocab_base_init, if_true]
  rw [take_indexOf_eq_takeWhile]

/-- Normal form of the batched decode of a constructed `ByteVocabulary`. -/
lemma byteVocab_decode_tf_init_eq (k : Int) (ids : List Int) :
    (ByteVocabulary.init k).decode_tf ids =
      match tfWhere 259 2 ids with
      | [] => none
      | h :: t =>
        (ByteVocabulary.init k).decodeTfImpl
          (if tfArgmaxEq (h :: t) 1 = 0 ∧ h ≠ 1 then h :: t
           else (h :: t).take (tfArgmaxEq (h :: t) 1)) := by
  simp only [ByteVocabulary.decode_tf, Vocabulary.decode_tf,
    Vocabulary.unk_id, Vocabulary.eos_id, UNK_ID, EOS_ID, init_use_eos,
    init_use_unk, byteVocab_base_init, if_true]

/-- The scalar unk substitution coincides with the batched `tf.where`
form. -/
lemma tfWhere_eq_scalar_map (base : Int) (ids : List Int) :
    ids.map (fun i => if base ≤ i then (2 : Int) else i) =
      tfWhere base 2 ids := by
  simp only [tfWhere]
  apply list_map_ext
  intro x _
  by_cases hx : base ≤ x
  · rw [if_pos hx, if_neg (by omega)]
  · rw [if_neg hx, if_pos (by omega)]

/-- Every element surviving `tf.where` is below the base size. -/
lemma mem_tfWhere_lt {base : Int} (hb : 2 < base) {ids : List Int} :
    ∀ x ∈ tfWhere base 2 ids, x < base := by
  intro x hx
  simp only [tfWhere, List.mem_map] at hx
  obtain ⟨i, _, rfl⟩ := hx
  split <;> omega

/-- The unk substitution introduces no terminator id. -/
lemma not_one_mem_tfWhere {base : Int} {ids : List Int}
    (h : (1 : Int) ∉ ids) : (1 : Int) ∉ tfWhere base 2 ids := by
  intro hx
  simp only [tfWhere, List.mem_map] at hx
  obtain ⟨i, hi, hq⟩ := hx
  split at hq
  · exact h (hq ▸ hi)
  · omega

/-- Fact: `tf.where` is the identity on in-range ids. -/
lemma tfWhere_eq_self {base : Int} (ids : List Int)
    (h : ∀ i ∈ ids, i < base) : tfWhere base 2 ids = ids := by
  simp only [tfWhere]
  exact list_map_fix _ _ (fun x hx => if_pos (h x hx))

/-- Encoding a non-empty string yields a non-empty byte sequence. -/
lemma utf8Encode_ne_nil (s : List Nat) (h : s ≠ []) : utf8Encode s ≠ [] := by
  cases s with
  | nil => exact absurd rfl h
  | cons c t =>
    simp only [utf8Encode, List.map_cons, List.flatten_cons]
    intro hx
    exact utf8EncodeChar_ne_nil c (List.append_eq_nil.mp hx).1

/-- The batched decoder agrees with the scalar decoder on every non-empty
id sequence (of a constructed `ByteVocabulary`). -/
lemma byteVocab_decode_tf_eq_decode (k : Int) (ids : List Int)
    (hne : ids ≠ []) :
    (ByteVocabulary.init k).decode_tf ids =
      (ByteVocabulary.init k).decode ids := by
  obtain ⟨h0, t, hv⟩ : ∃ h0 t, tfWhere 259 2 ids = h0 :: t := by
    cases hm : tfWhere 259 2 ids with
    | nil =>
      exfalso
      apply hne
      simpa [tfWhere] using hm
    | cons a l => exact ⟨a, l, rfl⟩
  rw [byteVocab_decode_tf_init_eq, hv, byteVocab_decode_init_eq,
    tfWhere_eq_scalar_map 259 ids, hv]
  simp only
  by_cases hmem : (1 : Int) ∈ h0 :: t
  · by_cases hh0 : h0 = 1
    · subst hh0
      simp only [tfArgmaxEq]
      rw [if_pos hmem, List.indexOf_cons_self]
      rw [if_neg (by simp), List.take_zero, if_pos hmem,
        List.takeWhile_cons]
      simp only [bne_self_eq_false, Bool.false_eq_true, if_false]
      rw [show (ByteVocabulary.init k).decodeTfImpl [] =
        (ByteVocabulary.init k).decode [] from rfl]
      rw [byteVocab_decode_init_eq]
      simp
    · have hfe : tfArgmaxEq (h0 :: t) 1 = List.indexOf 1 (h0 :: t) := by
        simp only [tfArgmaxEq]
        rw [if_pos hmem]
      have hfe0 : List.indexOf 1 (h0 :: t) ≠ 0 := by
        rw [List.indexOf_cons_ne t hh0]
        exact Nat.succ_ne_zero _
      rw [hfe, if_neg (by rintro ⟨h1, _⟩; exact hfe0 h1),
        take_indexOf_eq_takeWhile, if_pos hmem]
      rw [show (ByteVocabulary.init k).decodeTfImpl
          ((h0 :: t).takeWhile (fun i => i != 1)) =
        (ByteVocabulary.init k).decode
          ((h0 :: t).takeWhile (fun i => i != 1)) from rfl]
      rw [byteVocab_decode_init_eq]
      have hsub : ∀ x ∈ (h0 :: t).takeWhile (fun i => i != (1 : Int)),
          x < 259 := by
        intro x hx
        have hx2 : x ∈ h0 :: t := (List.takeWhile_sublist _).subset hx
        rw [← hv] at hx2
        exact mem_tfWhere_lt (by norm_num) x hx2
      have hfix : ((h0 :: t).takeWhile (fun i => i != (1 : Int))).map
          (fun i => if (259 : Int) ≤ i then 2 else i) =
          (h0 :: t).takeWhile (fun i => i != 1) :=
        list_map_fix _ _ (fun x hx => if_neg (by have := hsub x hx; omega))
      rw [hfix, if_neg (not_one_mem_takeWhile _)]
  · have hh0 : h0 ≠ 1 := fun he => hmem (he ▸ List.mem_cons_self h0 t)
    have hfe : tfArgmaxEq (h0 :: t) 1 = 0 := by
      simp only [tfArgmaxEq]
      rw [if_neg hmem]
    rw [if_pos ⟨hfe, hh0⟩, if_neg hmem]
    rw [show (ByteVocabulary.init k).decodeTfImpl (h0 :: t) =
      (ByteVocabulary.init k).decode (h0 :: t) from rfl]
    rw [byteVocab_decode_init_eq]
    have hsub : ∀ x ∈ h0 :: t, x < 259 := by
      rw [← hv]
      exact mem_tfWhere_lt (by norm_num)
    have hfix : (h0 :: t).map (fun i => if (259 : Int) ≤ i then 2 else i) =
        h0 :: t :=
      list_map_fix _ _ (fun x hx => if_neg (by have := hsub x hx; omega))
    rw [hfix, if_neg hmem]

/-- When the terminator does not occur, the batched decoder's EOS stage is
the identity: the primitive decoder receives the unk-substituted tensor
whole. -/
lemma byteVocab_decode_tf_no_eos (k : Int) (ids : List Int)
    (hne : ids ≠ []) (hmem : (1 : Int) ∉ ids) :
    (ByteVocabulary.init k).decode_tf ids =
      (ByteVocabulary.init k).decodeTfImpl (tfWhere 259 2 ids) := by
  obtain ⟨h0, t, hv⟩ : ∃ h0 t, tfWhere 259 2 ids = h0 :: t := by
    cases hm : tfWhere 259 2 ids with
    | nil =>
      exfalso
      apply hne
      simpa [tfWhere] using hm
    | cons a l => exact ⟨a, l, rfl⟩
  rw [byteVocab_decode_tf_init_eq, hv]
  simp only
  have hmem1 : (1 : Int) ∉ h0 :: t := hv ▸ not_one_mem_tfWhere hmem
  have hh0 : h0 ≠ 1 := fun he => hmem1 (he ▸ List.mem_cons_self h0 t)
  have hfe : tfArgmaxEq (h0 :: t) 1 = 0 := by
    simp only [tfArgmaxEq]
    rw [if_neg hmem1]
  rw [if_pos ⟨hfe, hh0⟩]

/-- A genuine terminator at position 0 truncates the batched decode to the
empty tensor before the primitive decoder runs. -/
lemma byteVocab_decode_tf_eos_head (k : Int) (t : List Int) :
    (ByteVocabulary.init k).decode_tf (1 :: t) =
      (ByteVocabulary.init k).decodeTfImpl [] := by
  rw [byteVocab_decode_tf_init_eq]
  have hv : tfWhere 259 2 (1 :: t) = 1 :: tfWhere 259 2 t := by
    simp only [tfWhere, List.map_cons]
    rw [if_pos (by omega : (1 : Int) < 259)]
  rw [hv]
  simp only [tfArgmaxEq, List.indexOf_cons_self, ite_self]
  rw [if_neg (by simp), List.take_zero]

/-- Claim C5:  On a non-empty sequence with no occurrence of the terminator
`eos_id = 1`, `Vocabulary.decode_tf` applies no truncation: the primitive
decoder receives the unk-substituted sequence, and the sequence itself
whenever all ids are in range — even though the argmax scan reports
position 0.  A genuine terminator at position 0 still truncates to the
empty sequence. -/
theorem byteVocab_decode_tf_no_eos_passthrough (k : Int) (ids : List Int)
    (hne : ids ≠ []) (hmem : (1 : Int) ∉ ids) :
    ((ByteVocabulary.init k).decode_tf ids =
      (ByteVocabulary.init k).decodeTfImpl (tfWhere 259 2 ids)) ∧
    ((∀ i ∈ ids, i < 259) →
      (ByteVocabulary.init k).decode_tf ids =
        (ByteVocabulary.init k).decodeTfImpl ids) ∧
    (∀ t : List Int, (ByteVocabulary.init k).decode_tf (1 :: t) =
      (ByteVocabulary.init k).decodeTfImpl []) := by
  refine ⟨byteVocab_decode_tf_no_eos k ids hne hmem, ?_, ?_⟩
  · intro hlt
    rw [byteVocab_decode_tf_no_eos k ids hne hmem, tfWhere_eq_self ids hlt]
  · intro t
    exact byteVocab_decode_tf_eos_head k t

/-- Closed witness for C5 at `ids = [5, 6]` (no terminator, in range): the
batched decode passes the sequence through unmodified. -/
theorem byteVocab_decode_tf_no_eos_passthrough_witness :
    (ByteVocabulary.init 0).decode_tf [5, 6] =
      (ByteVocabulary.init 0).decodeTfImpl [5, 6] :=
  (byteVocab_decode_tf_no_eos_passthrough 0 [5, 6] (by decide)
    (by decide)).2.1 (by decide)

/-- Claim C6, counterexample:  On the empty string the batched pipeline
raises (`tf.argmax` over an empty axis) while the scalar pipeline returns
the empty string, so the two pipelines differ at `s = ""`. -/
theorem byteVocab_tf_pipeline_empty_counterexample :
    (ByteVocabulary.init 0).decode_tf
        ((ByteVocabulary.init 0).encode_tf ([] : List Nat)) ≠
      (ByteVocabulary.init 0).decode
        ((ByteVocabulary.init 0).encode ([] : List Nat)) := by
  decide

/-- Claim C6, amended:  For every non-empty string `s`, the batched
pipeline agrees with the scalar pipeline:
`decode_tf(encode_tf(s)) = decode(encode(s))`. -/
theorem byteVocab_tf_pipeline_eq_scalar (k : Int) (s : List Nat)
    (hne : s ≠ []) :
    (ByteVocabulary.init k).decode_tf ((ByteVocabulary.init k).encode_tf s) =
      (ByteVocabulary.init k).decode ((ByteVocabulary.init k).encode s) := by
  have henc : (ByteVocabulary.init k).encode_tf s =
      (ByteVocabulary.init k).encode s := by
    rw [byteVocab_encode_init_eq]
    simp [ByteVocabulary.encode_tf, ByteVocabulary.encodeTfImpl,
      ByteVocabulary.init]
  rw [henc]
  apply byteVocab_decode_tf_eq_decode
  rw [byteVocab_encode_init_eq]
  intro hx
  exact utf8Encode_ne_nil s hne (List.map_eq_nil_iff.mp hx)

/-- Closed witness for the amended C6 at `s = "h"`. -/
theorem byteVocab_tf_pipeline_eq_scalar_witness :
    (ByteVocabulary.init 0).decode_tf
        ((ByteVocabulary.init 0).encode_tf [104]) =
      (ByteVocabulary.init 0).decode ((ByteVocabulary.init 0).encode [104]) :=
  byteVocab_tf_pipeline_eq_scalar 0 [104] (by decide)

example : pyUtf8DecodeIgnore (utf8Encode [104, 105, 8364, 128512]) =
    [104, 105, 8364, 128512] := by decide

example : pyUtf8DecodeIgnore [0xC2, 0x41] = [0x41] := by decide

example : pyUtf8DecodeIgnore [0xE2, 0x82] = [] := by decide
